import Mathlib

/-!
Verification development for the scheduler core of the asyncplusplus
repository (header `src/include/async++/scheduler_fwd.h` plus the behaviour
its comments and the design document ascribe to the scheduler
implementations).  The C++ declarations are shallowly embedded as executable
Lean definitions; observable behaviour (running a task, queueing it,
spawning a thread) is recorded in explicit event traces.
-/

namespace AsyncPP

/-- A `task_run_handle`: a move-only capsule wrapping one task record.  For
the purposes of scheduling behaviour a handle is identified by the id of the
task record it wraps. -/
structure task_run_handle where
  id : Nat
deriving DecidableEq, Repr

/-- Observable scheduling events.  `runTask t` records an invocation of the
handle's run operation, `enqueueTask t` records the handle being placed in a
queue, `spawnThread t` records creation of a new thread to run the handle. -/
inductive SchedEvent where
  | runTask (t : task_run_handle)
  | enqueueTask (t : task_run_handle)
  | spawnThread (t : task_run_handle)
deriving DecidableEq, Repr

/-- The run invocations recorded in an event trace, in order. -/
def runsOf (es : List SchedEvent) : List task_run_handle :=
  es.filterMap fun e =>
    match e with
    | .runTask t => some t
    | _ => none

/-! ## The compile-time scheduler capability contract

`scheduler_fwd.h:38-44` detects the contract by SFINAE: the overload of
`is_scheduler_helper<T>` returning `two&` (an object of size 2) is viable
exactly when the expression `declval<T>().schedule(declval<task_run_handle>())`
is well formed, otherwise the `one&` (size 1) fallback is chosen, and
`is_scheduler<T>::value` is the boolean conversion of `sizeof(...) - 1`.
A C++ type is modelled by the two compile-time facts the header can observe
about it: whether the schedule expression is well formed, and (for the
no-inheritance clause) whether it derives from some common scheduler base. -/

/-- Compile-time model of a C++ type as seen by the capability detection in
`scheduler_fwd.h`. -/
structure CppType where
  /-- whether `declval<T>().schedule(declval<task_run_handle>())` is a
  well-formed expression for this type -/
  hasScheduleForHandle : Bool
  /-- whether the type derives from some designated scheduler base class
  (irrelevant to the structural contract, modelled to state that fact) -/
  derivesFromSchedulerBase : Bool
deriving DecidableEq, Repr

/-- `sizeof(is_scheduler_helper<T>(0))` from `scheduler_fwd.h:39-42`: the
`two&` overload (size 2) is selected when the schedule expression is well
formed, else the `one&` fallback (size 1). -/
def is_scheduler_helper_sizeof (T : CppType) : Nat :=
  if T.hasScheduleForHandle then 2 else 1

/-- `is_scheduler<T>::value` from `scheduler_fwd.h:43-44`:
`std::integral_constant<bool, sizeof(is_scheduler_helper<T>(0)) - 1>`, the
boolean conversion of `sizeof - 1` (nonzero means true). -/
def is_scheduler (T : CppType) : Bool :=
  is_scheduler_helper_sizeof T - 1 != 0

/-- A compile-time diagnostic produced while instantiating a template. -/
inductive CompileError where
  | staticAssertFailed (msg : String)
deriving DecidableEq, Repr

/-- Instantiating `scheduler_ref::invoke_sched<T>` (`scheduler_fwd.h:51-56`):
the body `static_assert(is_scheduler<T>::value, "Type is not a valid
scheduler")` fires during instantiation when the contract fails, so
compilation succeeds exactly when `is_scheduler<T>` holds. -/
def instantiate_invoke_sched (T : CppType) : Except CompileError Unit :=
  if is_scheduler T then Except.ok ()
  else Except.error (CompileError.staticAssertFailed "Type is not a valid scheduler")

/-- Compiling the templated constructor `scheduler_ref(T&)`
(`scheduler_fwd.h:61-62`): taking the address of `invoke_sched<T>` for the
`sched_func` member instantiates `invoke_sched<T>`, so construction compiles
exactly when that instantiation does. -/
def scheduler_ref_construct (T : CppType) : Except CompileError Unit :=
  instantiate_invoke_sched T

/-! ## The type-erased scheduler reference (run time)

`scheduler_fwd.h:47-69`.  The C++ erases the scheduler's type behind a
`void*` plus a function pointer; the embedding keeps the scheduler state type
`σ` as a parameter and models the two members `sched_ptr` and `sched_func`
as `Option`-valued fields, `none` standing for the indeterminate contents the
defaulted constructor `scheduler_ref() = default` leaves behind (both members
are raw pointers with no initializers).  A concrete scheduler's `schedule`
is modelled as a function from its state and a handle to a new state plus
the event trace emitted before the call returns; `scheduler_ref.schedule`
returns `none` when it would call through an indeterminate function pointer
(undefined behaviour) and `some` of the dispatched call's behaviour
otherwise. -/

/-- Behaviour of a concrete scheduler's `schedule` member on state type `σ`:
the new scheduler state and the events emitted before the call returns. -/
def ScheduleFn (σ : Type) : Type :=
  σ → task_run_handle → σ × List SchedEvent

/-- `scheduler_ref` (`scheduler_fwd.h:47-69`): the type-erased pair of a
pointer to the scheduler and a dispatch function pointer. -/
structure scheduler_ref (σ : Type) where
  sched_ptr : Option σ
  sched_func : Option (ScheduleFn σ)

/-- `scheduler_ref::invoke_sched<T>` (`scheduler_fwd.h:52-56`): casts the
erased pointer back to the concrete scheduler type and calls its
`schedule`. -/
def invoke_sched {σ : Type} (schedule_impl : ScheduleFn σ) : ScheduleFn σ :=
  fun sched t => schedule_impl sched t

/-- `scheduler_ref() = default` (`scheduler_fwd.h:60`): both members are left
uninitialized (indeterminate), modelled by `none`. -/
def scheduler_ref.default_ctor (σ : Type) : scheduler_ref σ :=
  ⟨none, none⟩

/-- `scheduler_ref(T& sched)` (`scheduler_fwd.h:61-62`): stores the address
of the scheduler and the `invoke_sched<T>` dispatch function. -/
def scheduler_ref.of {σ : Type} (schedule_impl : ScheduleFn σ) (sched : σ) :
    scheduler_ref σ :=
  ⟨some sched, some (invoke_sched schedule_impl)⟩

/-- `scheduler_ref::schedule` (`scheduler_fwd.h:65-68`): calls
`sched_func(sched_ptr, move(t))`.  `none` marks the undefined behaviour of
calling through an indeterminate function pointer. -/
def scheduler_ref.schedule {σ : Type} (r : scheduler_ref σ) (t : task_run_handle) :
    Option (σ × List SchedEvent) :=
  match r.sched_func, r.sched_ptr with
  | some f, some p => some (f p t)
  | _, _ => none

/-! ## The inline and detached-thread singleton schedulers -/

/-- Modelled from the spec: `inline_scheduler_impl::schedule` is declared at
`scheduler_fwd.h:76-79` but its body is not among the repository files here;
per the spec it synchronously invokes the handle's run operation on the
calling thread before returning, with no queuing and no thread creation.
The result is the event trace emitted before `schedule` returns. -/
def inline_scheduler_impl.schedule (t : task_run_handle) : List SchedEvent :=
  [SchedEvent.runTask t]

/-- Modelled from the spec: `thread_scheduler_impl::schedule` is declared at
`scheduler_fwd.h:72-75` but its body is not among the repository files here;
per the spec it spawns a new detached thread that runs the handle's run
operation.  The trace emitted before `schedule` returns contains only the
spawn; the run happens later on the spawned thread. -/
def thread_scheduler_impl.schedule (t : task_run_handle) : List SchedEvent :=
  [SchedEvent.spawnThread t]

/-- Modelled from the spec: the run invocations performed by the detached
threads spawned for the handles `hs`, over the whole process lifetime.  The
spec's caveat is that the scheduler does not wait for spawned threads at
process exit, so a task may never run when the process ends first;
`processOutlives` records whether the process outlived all spawned
threads. -/
def thread_scheduler_impl.lifetimeRuns (processOutlives : Bool)
    (hs : List task_run_handle) : List task_run_handle :=
  if processOutlives then hs else []

/-! ## The FIFO scheduler

`scheduler_fwd.h:129-147` declares `fifo_scheduler` with a pimpl'd
`internal_data`; the member bodies are not among the repository files here,
so they are modelled from the spec: a mutex-guarded ordered queue with
insertion order equal to run order.  The sequential claims about it (single
thread, no concurrent submitters) are settled on the queue contents, the
mutex being irrelevant to a single-threaded execution. -/

/-- `fifo_scheduler` (`scheduler_fwd.h:131-147`): its internal data, modelled
from the spec as the ordered queue of task handles. -/
structure fifo_scheduler where
  queue : List task_run_handle
deriving DecidableEq, Repr

/-- Modelled from the spec: `fifo_scheduler::schedule` (declared at
`scheduler_fwd.h:140`, body not among the repository files here) appends the
handle to the queue under the lock. -/
def fifo_scheduler.schedule (s : fifo_scheduler) (t : task_run_handle) :
    fifo_scheduler :=
  ⟨s.queue ++ [t]⟩

/-- Modelled from the spec: `fifo_scheduler::try_run_one_task` (declared at
`scheduler_fwd.h:143`, body not among the repository files here): under the
lock, pops the front handle if present, then runs it outside the lock;
returns whether a task was found and run.  The result is the returned
boolean, the handles run during the call (in order) and the new queue
state. -/
def fifo_scheduler.try_run_one_task (s : fifo_scheduler) :
    Bool × List task_run_handle × fifo_scheduler :=
  match s.queue with
  | [] => (false, [], s)
  | t :: rest => (true, [t], ⟨rest⟩)

/-- Modelled from the spec: `fifo_scheduler::run_all_tasks` (declared at
`scheduler_fwd.h:146`, body not among the repository files here): repeatedly
applies `try_run_one_task` until it reports that no task was available.  The
result is the sequence of handles run (in order) and the final state. -/
def fifo_scheduler.run_all_tasks (s : fifo_scheduler) :
    List task_run_handle × fifo_scheduler :=
  match h : s.try_run_one_task with
  | (false, _, _) => ([], s)
  | (true, ran, s2) =>
    let rest := s2.run_all_tasks
    (ran ++ rest.1, rest.2)
termination_by s.queue.length
decreasing_by
  cases hq : s.queue with
  | nil => simp [fifo_scheduler.try_run_one_task, hq] at h
  | cons a l =>
    simp [fifo_scheduler.try_run_one_task, hq] at h
    rw [← h.2]
    simp [hq]

/-- Scheduling a list of handles in order, one `schedule` call per handle. -/
def scheduleAll (s : fifo_scheduler) (hs : List task_run_handle) :
    fifo_scheduler :=
  hs.foldl fifo_scheduler.schedule s

theorem scheduleAll_queue (hs : List task_run_handle) :
    ∀ q : List task_run_handle, scheduleAll ⟨q⟩ hs = ⟨q ++ hs⟩ := by
  induction hs with
  | nil => intro q; simp [scheduleAll]
  | cons t rest ih =>
    intro q
    have step : scheduleAll ⟨q⟩ (t :: rest) = scheduleAll ⟨q ++ [t]⟩ rest := rfl
    rw [step, ih]
    simp

theorem run_all_tasks_eq (q : List task_run_handle) :
    fifo_scheduler.run_all_tasks ⟨q⟩ = (q, ⟨[]⟩) := by
  induction q with
  | nil =>
    rw [fifo_scheduler.run_all_tasks]
    simp [fifo_scheduler.try_run_one_task]
  | cons t rest ih =>
    rw [fifo_scheduler.run_all_tasks]
    simp [fifo_scheduler.try_run_one_task, ih]

/-! ## The work-stealing thread pool scheduler

`scheduler_fwd.h:149-164` declares `threadpool_scheduler` with a pimpl'd
`detail::threadpool_data`; the member bodies are not among the repository
files here, so the pool is modelled from the spec: per-worker local queues,
a shared injection queue, the set of tasks currently running on workers, and
a shutdown flag.  Local push and pop use the local end (front, LIFO);
stealing takes from the opposite end (back). -/

/-- Modelled from the spec: `detail::threadpool_data`
(`scheduler_fwd.h:96-97,153`): one private deque per worker, the shared
injection queue, the handles currently being run on worker threads, and the
shutdown flag. -/
structure threadpool_data where
  localQueues : List (List task_run_handle)
  injectionQueue : List task_run_handle
  running : List task_run_handle
  shutdown : Bool
deriving DecidableEq, Repr

/-- All queued-but-unstarted handles of the pool: every local queue's
contents followed by the injection queue. -/
def pendingList (p : threadpool_data) : List task_run_handle :=
  p.localQueues.flatten ++ p.injectionQueue

/-- The ids of the queued-but-unstarted handles. -/
def pendingIds (p : threadpool_data) : List Nat :=
  (pendingList p).map task_run_handle.id

/-- `threadpool_scheduler(num_threads)` (`scheduler_fwd.h:157`), modelled
from the spec: starts `num_threads` workers, each with an empty private
queue, an empty injection queue, nothing running, shutdown not requested. -/
def threadpool_scheduler.construct (num_threads : Nat) : threadpool_data :=
  ⟨List.replicate num_threads [], [], [], false⟩

/-- Modelled from the spec: `threadpool_scheduler::schedule` (declared at
`scheduler_fwd.h:163`, body not among the repository files here): a call
from pool worker `i` pushes onto that worker's own queue at its local end;
a call from any other thread (`caller = none`) appends to the shared
injection queue. -/
def threadpool_scheduler.schedule (caller : Option Nat) (p : threadpool_data)
    (t : task_run_handle) : threadpool_data :=
  match caller with
  | some i =>
    { p with localQueues := p.localQueues.set i (t :: p.localQueues.getD i []) }
  | none => { p with injectionQueue := p.injectionQueue ++ [t] }

/-- Total indexing into the list of worker queues: worker `j`'s queue, the
empty queue when `j` is out of range. -/
def nthQueue (qs : List (List task_run_handle)) (j : Nat) :
    List task_run_handle :=
  qs.getD j []

theorem nthQueue_nil (j : Nat) : nthQueue [] j = [] := rfl

theorem nthQueue_cons_zero (a : List task_run_handle)
    (l : List (List task_run_handle)) : nthQueue (a :: l) 0 = a := rfl

theorem nthQueue_cons_succ (a : List task_run_handle)
    (l : List (List task_run_handle)) (j : Nat) :
    nthQueue (a :: l) (j + 1) = nthQueue l j := rfl

theorem nthQueue_eq_getElem (qs : List (List task_run_handle)) {j : Nat}
    (hj : j < qs.length) : nthQueue qs j = qs[j] :=
  List.getD_eq_getElem qs [] hj

theorem nthQueue_replicate_nil (n j : Nat) :
    nthQueue (List.replicate n []) j = [] := by
  induction n generalizing j with
  | zero => rfl
  | succ n ih =>
    cases j with
    | zero => rfl
    | succ j => rw [List.replicate, nthQueue_cons_succ]; exact ih j

/-- Modelled from the spec: victim selection for stealing — the first other
worker whose queue is non-empty. -/
def findVictim (i : Nat) (qs : List (List task_run_handle)) : Option Nat :=
  (List.range qs.length).find? fun j => j != i && !(nthQueue qs j).isEmpty

/-- Modelled from the spec: worker `i` attempts to steal from the opposite
(back) end of a victim's queue. -/
def stealFrom (i : Nat) (p : threadpool_data) :
    Option (task_run_handle × threadpool_data) :=
  match findVictim i p.localQueues with
  | none => none
  | some j =>
    match (nthQueue p.localQueues j).getLast? with
    | none => none
    | some t =>
      some (t, { p with localQueues :=
        p.localQueues.set j (nthQueue p.localQueues j).dropLast })

/-- Modelled from the spec: steps 1-3 of the worker loop for worker `i` —
pop the local end of its own queue, else take the front of the injection
queue, else steal from a victim's opposite end.  Returns the handle to run
and the pool state after removing it, or `none` when no work was found
anywhere. -/
def findWork (i : Nat) (p : threadpool_data) :
    Option (task_run_handle × threadpool_data) :=
  match nthQueue p.localQueues i with
  | t :: rest =>
    some (t, { p with localQueues := p.localQueues.set i rest })
  | [] =>
    match p.injectionQueue with
    | t :: rest => some (t, { p with injectionQueue := rest })
    | [] => stealFrom i p

theorem flatten_set_perm (qs : List (List task_run_handle)) :
    ∀ (i : Nat) (l₁ l₂ : List task_run_handle) (t : task_run_handle),
      nthQueue qs i = l₁ ++ t :: l₂ →
      qs.flatten.Perm (t :: (qs.set i (l₁ ++ l₂)).flatten) := by
  induction qs with
  | nil =>
    intro i l₁ l₂ t h
    rw [nthQueue_nil] at h
    simp at h
  | cons a l ih =>
    intro i l₁ l₂ t h
    cases i with
    | zero =>
      rw [nthQueue_cons_zero] at h
      subst h
      simp only [List.set, List.flatten_cons]
      have h1 : (l₁ ++ t :: l₂) ++ l.flatten = l₁ ++ t :: (l₂ ++ l.flatten) := by
        simp
      have h2 : (l₁ ++ l₂) ++ l.flatten = l₁ ++ (l₂ ++ l.flatten) :=
        List.append_assoc l₁ l₂ l.flatten
      rw [h1, h2]
      exact List.perm_middle
    | succ i =>
      rw [nthQueue_cons_succ] at h
      have hperm := ih i l₁ l₂ t h
      simp only [List.set, List.flatten_cons]
      exact (hperm.append_left a).trans List.perm_middle

theorem findWork_perm {i : Nat} {p p2 : threadpool_data} {t : task_run_handle}
    (h : findWork i p = some (t, p2)) :
    (pendingList p).Perm (t :: pendingList p2) := by
  unfold findWork at h
  cases hl : nthQueue p.localQueues i with
  | cons a rest =>
    rw [hl] at h
    simp only [Option.some.injEq, Prod.mk.injEq] at h
    obtain ⟨h1, h2⟩ := h
    have hsplit : nthQueue p.localQueues i = [] ++ a :: rest := by
      simpa using hl
    have hperm := flatten_set_perm p.localQueues i [] rest a hsplit
    simp only [List.nil_append] at hperm
    have hp := hperm.append_right p.injectionQueue
    rw [h1] at hp
    rw [← h2]
    simpa [pendingList] using hp
  | nil =>
    rw [hl] at h
    cases hinj : p.injectionQueue with
    | cons a rest =>
      rw [hinj] at h
      simp only [Option.some.injEq, Prod.mk.injEq] at h
      obtain ⟨h1, h2⟩ := h
      rw [← h1, ← h2]
      simp only [pendingList, hinj]
      exact List.perm_middle
    | nil =>
      rw [hinj] at h
      unfold stealFrom at h
      cases hv : findVictim i p.localQueues with
      | none => rw [hv] at h; exact Option.noConfusion h
      | some j =>
        rw [hv] at h
        dsimp only at h
        cases hlast : (nthQueue p.localQueues j).getLast? with
        | none => rw [hlast] at h; exact Option.noConfusion h
        | some b =>
          rw [hlast] at h
          simp only [Option.some.injEq, Prod.mk.injEq] at h
          obtain ⟨h1, h2⟩ := h
          obtain ⟨ys, hys⟩ := List.getLast?_eq_some_iff.mp hlast
          have hsplit : nthQueue p.localQueues j = ys ++ b :: [] := by
            simpa using hys
          have hperm := flatten_set_perm p.localQueues j ys [] b hsplit
          have hdrop : (nthQueue p.localQueues j).dropLast = ys := by
            rw [hys]; exact List.dropLast_concat
          simp only [List.append_nil] at hperm
          rw [← h1, ← h2]
          simp only [pendingList, hinj, List.append_nil, hdrop]
          exact hperm

theorem findWork_length {i : Nat} {p p2 : threadpool_data}
    {t : task_run_handle} (h : findWork i p = some (t, p2)) :
    (pendingList p2).length < (pendingList p).length := by
  have := (findWork_perm h).length_eq
  simp only [List.length_cons] at this
  omega

theorem findWork_progress (i : Nat) (p : threadpool_data)
    (h : pendingList p ≠ []) : (findWork i p).isSome = true := by
  unfold findWork
  cases hl : nthQueue p.localQueues i with
  | cons a rest => simp
  | nil =>
    cases hinj : p.injectionQueue with
    | cons a rest => simp
    | nil =>
      have hfl : p.localQueues.flatten ≠ [] := by
        simpa [pendingList, hinj] using h
      have hex : ∃ l ∈ p.localQueues, l ≠ [] := by
        by_contra hc
        push_neg at hc
        exact hfl (List.flatten_eq_nil_iff.mpr hc)
      obtain ⟨q, hqmem, hqne⟩ := hex
      obtain ⟨j, hj, hjq⟩ := List.mem_iff_getElem.mp hqmem
      have hgd : nthQueue p.localQueues j = q := by
        rw [nthQueue_eq_getElem p.localQueues hj, hjq]
      have hji : j ≠ i := by
        intro e
        rw [e, hl] at hgd
        exact hqne hgd.symm
      have hq2 : (nthQueue p.localQueues j).isEmpty = false := by
        rw [hgd]
        cases q with
        | nil => exact absurd rfl hqne
        | cons x xs => rfl
      have hpred : (j != i && !(nthQueue p.localQueues j).isEmpty) = true := by
        simp [hji, hq2]
      have hvic : findVictim i p.localQueues ≠ none := by
        unfold findVictim
        intro hnone
        exact List.find?_eq_none.mp hnone j (List.mem_range.mpr hj) hpred
      unfold stealFrom
      cases hv : findVictim i p.localQueues with
      | none => exact absurd hv hvic
      | some j' =>
        have hpred' := List.find?_some hv
        have hne' : nthQueue p.localQueues j' ≠ [] := by
          intro e
          rw [e] at hpred'
          simp at hpred'
        have hsome : ((nthQueue p.localQueues j').getLast?).isSome = true :=
          List.getLast?_isSome.mpr hne'
        obtain ⟨b, hlast⟩ := Option.isSome_iff_exists.mp hsome
        simp [hlast]

/-- Modelled from the spec: one worker `i` repeatedly runs the worker loop
(steps 1-3) until no work is found anywhere.  Returns the handles it runs,
in order, and the resulting pool state. -/
def drainPool (i : Nat) (p : threadpool_data) :
    List task_run_handle × threadpool_data :=
  match h : findWork i p with
  | none => ([], p)
  | some (t, p2) =>
    let rest := drainPool i p2
    (t :: rest.1, rest.2)
termination_by (pendingList p).length
decreasing_by exact findWork_length h

/-- The outcome of destroying a `threadpool_scheduler`: the tasks that were
already running and are allowed to finish, the queued-but-unstarted handles
that are dropped, and the pool state after shutdown completes. -/
structure ShutdownOutcome where
  finished : List task_run_handle
  dropped : List task_run_handle
  final : threadpool_data
deriving DecidableEq, Repr

/-- Modelled from the spec: `threadpool_scheduler::~threadpool_scheduler`
(declared at `scheduler_fwd.h:159-160`, body not among the repository files
here): sets the shutdown flag and signals the workers; tasks already running
on worker threads are allowed to finish, and every handle still sitting in a
queue is dropped (never run, its record destroyed). -/
def threadpool_scheduler.destroy (p : threadpool_data) : ShutdownOutcome :=
  { finished := p.running
  , dropped := pendingList p
  , final :=
    { localQueues := List.replicate p.localQueues.length []
    , injectionQueue := []
    , running := []
    , shutdown := true } }

theorem findWork_replicate_nil (i n : Nat) (r : List task_run_handle)
    (sd : Bool) :
    findWork i ⟨List.replicate n [], [], r, sd⟩ = none := by
  unfold findWork
  rw [nthQueue_replicate_nil]
  unfold stealFrom findVictim
  have hnone : List.find?
      (fun j => j != i &&
        !(nthQueue (List.replicate n []) j).isEmpty)
      (List.range (List.replicate n ([] : List task_run_handle)).length)
      = none := by
    rw [List.find?_eq_none]
    intro j _
    simp [nthQueue_replicate_nil]
  simp only [hnone]

theorem findWork_replicate_cons (i n : Nat) (t : task_run_handle)
    (rest r : List task_run_handle) (sd : Bool) :
    findWork i ⟨List.replicate n [], t :: rest, r, sd⟩
      = some (t, ⟨List.replicate n [], rest, r, sd⟩) := by
  unfold findWork
  rw [nthQueue_replicate_nil]

theorem drainPool_replicate (i n : Nat) (r : List task_run_handle)
    (sd : Bool) (q : List task_run_handle) :
    drainPool i ⟨List.replicate n [], q, r, sd⟩
      = (q, ⟨List.replicate n [], [], r, sd⟩) := by
  induction q with
  | nil =>
    rw [drainPool]
    split <;> simp_all [findWork_replicate_nil]
  | cons t rest ih =>
    rw [drainPool]
    split <;> simp_all [findWork_replicate_cons]

/-- Scheduling a list of handles on the pool from outside it (every
`schedule` call lands on the injection queue), in order. -/
def scheduleAllPool (p : threadpool_data) (hs : List task_run_handle) :
    threadpool_data :=
  hs.foldl (threadpool_scheduler.schedule none) p

theorem scheduleAllPool_state (hs : List task_run_handle) :
    ∀ (qs : List (List task_run_handle)) (q r : List task_run_handle)
      (sd : Bool),
      scheduleAllPool ⟨qs, q, r, sd⟩ hs = ⟨qs, q ++ hs, r, sd⟩ := by
  induction hs with
  | nil => intro qs q r sd; simp [scheduleAllPool]
  | cons t rest ih =>
    intro qs q r sd
    have step : scheduleAllPool ⟨qs, q, r, sd⟩ (t :: rest)
        = scheduleAllPool ⟨qs, q ++ [t], r, sd⟩ rest := rfl
    rw [step, ih]
    simp

/-- Modelled from the spec: the per-worker "helping" wait handler backing
`wait_for_task` (`scheduler_fwd.h:92-94`; the wait-handler bodies are not
among the repository files here).  Instead of sleeping, pool worker `i`
re-enters the worker loop (steps 1-3) to execute other available work,
re-checking the awaited record's completion flag before each iteration;
running a handle sets its record's id complete.  Returns the completed ids
and the pool state once the flag is observed set, or `none` when the flag is
unset and no work is available anywhere (the wait never returns). -/
def helpingWait (i target : Nat) (completed : List Nat) (p : threadpool_data) :
    Option (List Nat × threadpool_data) :=
  if target ∈ completed then some (completed, p)
  else
    match h : findWork i p with
    | none => none
    | some (t, p2) => helpingWait i target (t.id :: completed) p2
termination_by (pendingList p).length
decreasing_by exact findWork_length h

theorem helpingWait_sound (i target : Nat) :
    ∀ (n : Nat) (p : threadpool_data), (pendingList p).length ≤ n →
      ∀ (completed done : List Nat) (p2 : threadpool_data),
        helpingWait i target completed p = some (done, p2) → target ∈ done := by
  intro n
  induction n with
  | zero =>
    intro p hlen completed done p2 h
    rw [helpingWait] at h
    split at h
    · rename_i hmem
      simp only [Option.some.injEq, Prod.mk.injEq] at h
      rw [← h.1]
      exact hmem
    · split at h
      · exact Option.noConfusion h
      · rename_i t p' hfw
        have := findWork_length hfw
        omega
  | succ n ih =>
    intro p hlen completed done p2 h
    rw [helpingWait] at h
    split at h
    · rename_i hmem
      simp only [Option.some.injEq, Prod.mk.injEq] at h
      rw [← h.1]
      exact hmem
    · split at h
      · exact Option.noConfusion h
      · rename_i t p' hfw
        have hlt := findWork_length hfw
        exact ih p' (by omega) (t.id :: completed) done p2 h

theorem helpingWait_completes (i target : Nat) :
    ∀ (n : Nat) (p : threadpool_data), (pendingList p).length ≤ n →
      ∀ completed : List Nat,
        target ∈ completed ∨ target ∈ pendingIds p →
        (helpingWait i target completed p).isSome = true := by
  intro n
  induction n with
  | zero =>
    intro p hlen completed hq
    rw [helpingWait]
    have hmem : target ∈ completed := by
      rcases hq with hc | hp
      · exact hc
      · exfalso
        have : pendingList p = [] := List.length_eq_zero.mp (by omega)
        rw [pendingIds, this] at hp
        simp at hp
    rw [if_pos hmem]
    rfl
  | succ n ih =>
    intro p hlen completed hq
    rw [helpingWait]
    by_cases hmem : target ∈ completed
    · rw [if_pos hmem]; rfl
    · rw [if_neg hmem]
      have hp : target ∈ pendingIds p := hq.resolve_left hmem
      have hne : pendingList p ≠ [] := by
        intro e
        rw [pendingIds, e] at hp
        simp at hp
      have hfw := findWork_progress i p hne
      obtain ⟨⟨t, p'⟩, hfweq⟩ := Option.isSome_iff_exists.mp hfw
      split
      · rename_i hnone
        rw [hfweq] at hnone
        exact Option.noConfusion hnone
      · rename_i t' p'' hfweq'
        rw [hfweq'] at hfweq
        have hlt := findWork_length hfweq'
        apply ih p'' (by omega) (t'.id :: completed)
        by_cases hid : t'.id = target
        · exact Or.inl (by rw [hid]; exact List.mem_cons_self _ _)
        · have hperm := (findWork_perm hfweq').map task_run_handle.id
          have : target ∈ t'.id :: pendingIds p'' := by
            rw [pendingIds] at hp ⊢
            exact (hperm.mem_iff).mp hp
          rcases List.mem_cons.mp this with he | hin
          · exact absurd he.symm hid
          · exact Or.inr hin

/-! ## Whole-lifecycle run counts per scheduler

The four scheduler types, each with the lifecycle fact that decides whether
the scheduler ever gets to run the handles given to it: the detached-thread
scheduler only runs a handle when the process outlives its spawned thread,
the FIFO scheduler only when some thread drains the queue, the pool only
when it is not destroyed while the handle is still queued. -/

/-- A scheduler choice for a batch of handles, with its lifecycle fact. -/
inductive SchedulerChoice where
  | inlineSched
  | threadSched (processOutlives : Bool)
  | fifoSched (drained : Bool)
  | poolSched (destroyedWhileQueued : Bool)
deriving DecidableEq, Repr

/-- The run invocations over the records' lifetimes when the handles `hs`
are scheduled in order via the chosen scheduler: inline runs each handle
during `schedule` itself; the detached-thread scheduler runs them on the
spawned threads when the process outlives those threads; the FIFO scheduler
runs them when a thread calls `run_all_tasks`; the pool (one worker, all
submissions from outside) runs them when it is drained, and drops them when
it is destroyed while they are still queued. -/
def lifetimeRuns (c : SchedulerChoice) (hs : List task_run_handle) :
    List task_run_handle :=
  match c with
  | .inlineSched =>
    hs.flatMap fun t => runsOf (inline_scheduler_impl.schedule t)
  | .threadSched outlives => thread_scheduler_impl.lifetimeRuns outlives hs
  | .fifoSched drained =>
    if drained then ((scheduleAll ⟨[]⟩ hs).run_all_tasks).1 else []
  | .poolSched destroyed =>
    let p := scheduleAllPool (threadpool_scheduler.construct 1) hs
    if destroyed then (threadpool_scheduler.destroy p).finished
    else (drainPool 0 p).1

/-- The lifecycle fact under which the chosen scheduler actually executes
the handles given to it (rather than dropping them). -/
def schedulerExecutes : SchedulerChoice → Prop
  | .inlineSched => True
  | .threadSched outlives => outlives = true
  | .fifoSched drained => drained = true
  | .poolSched destroyed => destroyed = false

theorem lifetimeRuns_of_executes (c : SchedulerChoice)
    (hs : List task_run_handle) (h : schedulerExecutes c) :
    lifetimeRuns c hs = hs := by
  cases c with
  | inlineSched =>
    simp [lifetimeRuns, inline_scheduler_impl.schedule, runsOf]
  | threadSched outlives =>
    have : outlives = true := h
    simp [lifetimeRuns, thread_scheduler_impl.lifetimeRuns, this]
  | fifoSched drained =>
    have hd : drained = true := h
    rw [lifetimeRuns, hd, if_pos rfl, scheduleAll_queue hs [],
      List.nil_append, run_all_tasks_eq]
  | poolSched destroyed =>
    have hd : destroyed = false := h
    rw [lifetimeRuns, hd]
    simp only [Bool.false_eq_true, if_false]
    rw [threadpool_scheduler.construct, scheduleAllPool_state hs,
      List.nil_append, drainPool_replicate]

theorem lifetimeRuns_of_not_executes (c : SchedulerChoice)
    (hs : List task_run_handle) (h : ¬ schedulerExecutes c) :
    lifetimeRuns c hs = [] := by
  cases c with
  | inlineSched => exact absurd trivial h
  | threadSched outlives =>
    have : outlives = false := by
      cases outlives
      · rfl
      · exact absurd rfl h
    simp [lifetimeRuns, thread_scheduler_impl.lifetimeRuns, this]
  | fifoSched drained =>
    have hd : drained = false := by
      cases drained
      · rfl
      · exact absurd rfl h
    simp [lifetimeRuns, hd]
  | poolSched destroyed =>
    have hd : destroyed = true := by
      cases destroyed
      · exact absurd rfl h
      · rfl
    rw [lifetimeRuns, hd]
    simp only [if_true]
    rw [threadpool_scheduler.construct, scheduleAllPool_state hs]
    rfl

/-! ## The claims -/

/-- C1 (counterexample to the claim as stated): a handle scheduled on a
thread pool that is destroyed while the handle is still queued is dropped
and its run operation is invoked zero times, not exactly once. -/
theorem run_op_exactly_once_counterexample :
    (lifetimeRuns (SchedulerChoice.poolSched true) [⟨0⟩]).count ⟨0⟩ = 0 := by
  decide

/-- C1 (amended): for distinct handles scheduled via any of the four
scheduler types, each handle's run operation is invoked at most once over
the record's lifetime, and exactly once provided the scheduler actually
executes its queue rather than dropping it (the inline scheduler always
does; the detached-thread scheduler when the process outlives the spawned
threads; the FIFO scheduler when the queue is drained; the thread pool when
it is not destroyed while the handle is still queued). -/
theorem run_op_at_most_once_and_once_if_executed (c : SchedulerChoice)
    (hs : List task_run_handle) (hnd : hs.Nodup) (t : task_run_handle)
    (ht : t ∈ hs) :
    (lifetimeRuns c hs).count t ≤ 1 ∧
      (schedulerExecutes c → (lifetimeRuns c hs).count t = 1) := by
  by_cases h : schedulerExecutes c
  · rw [lifetimeRuns_of_executes c hs h]
    have hone := List.count_eq_one_of_mem hnd ht
    exact ⟨le_of_eq hone, fun _ => hone⟩
  · rw [lifetimeRuns_of_not_executes c hs h]
    exact ⟨by simp, fun hc => absurd hc h⟩

/-- C1 witness: the amended claim at the inline scheduler and one handle. -/
theorem run_op_at_most_once_witness :
    (lifetimeRuns SchedulerChoice.inlineSched [⟨5⟩]).count ⟨5⟩ ≤ 1 ∧
      (schedulerExecutes SchedulerChoice.inlineSched →
        (lifetimeRuns SchedulerChoice.inlineSched [⟨5⟩]).count ⟨5⟩ = 1) :=
  run_op_at_most_once_and_once_if_executed SchedulerChoice.inlineSched
    [⟨5⟩] (by decide) ⟨5⟩ (by decide)

/-- C2: wrapping a scheduler instance in a type-erased `scheduler_ref` and
calling `schedule` through the reference dispatches, via the stored
function pointer `invoke_sched`, exactly the concrete scheduler's
`schedule` on the stored instance: the observable behaviour is identical
to calling `schedule` on the concrete instance directly. -/
theorem scheduler_ref_schedule_roundtrip {σ : Type} (impl : ScheduleFn σ)
    (s : σ) (t : task_run_handle) :
    (scheduler_ref.of impl s).schedule t = some (impl s t) := rfl

/-- C3: for a sequence of handles scheduled in order on a FIFO scheduler by
a single thread, `run_all_tasks` runs them in exactly that insertion
order. -/
theorem fifo_run_all_tasks_insertion_order (hs : List task_run_handle) :
    ((scheduleAll ⟨[]⟩ hs).run_all_tasks).1 = hs := by
  rw [scheduleAll_queue hs [], run_all_tasks_eq]
  simp

/-- C4: `try_run_one_task` returns true exactly when a handle was present
at the front of the queue, in which case that front handle is removed and
run; on an empty queue it returns false, runs nothing and leaves the state
unchanged. -/
theorem fifo_try_run_one_task_spec (s : fifo_scheduler) :
    ((s.try_run_one_task).1 = true ↔ s.queue ≠ []) ∧
    (s.queue = [] → s.try_run_one_task = (false, [], s)) ∧
    ∀ (t : task_run_handle) (rest : List task_run_handle),
      s.queue = t :: rest → s.try_run_one_task = (true, [t], ⟨rest⟩) := by
  obtain ⟨q⟩ := s
  cases q with
  | nil =>
    refine ⟨by simp [fifo_scheduler.try_run_one_task], fun _ => rfl, ?_⟩
    intro t rest h
    exact absurd h (by simp)
  | cons a l =>
    refine ⟨by simp [fifo_scheduler.try_run_one_task], ?_, ?_⟩
    · intro h
      exact absurd h (by simp)
    · intro t rest h
      obtain ⟨rfl, rfl⟩ := List.cons.inj h
      rfl

/-- C5: the inline scheduler's `schedule` synchronously invokes the
handle's run operation (exactly once) on the calling thread before
returning, with no queuing and no thread creation. -/
theorem inline_schedule_runs_synchronously (t : task_run_handle) :
    runsOf (inline_scheduler_impl.schedule t) = [t] ∧
    SchedEvent.runTask t ∈ inline_scheduler_impl.schedule t ∧
    (∀ u, SchedEvent.enqueueTask u ∉ inline_scheduler_impl.schedule t) ∧
    (∀ u, SchedEvent.spawnThread u ∉ inline_scheduler_impl.schedule t) := by
  refine ⟨rfl, ?_, ?_, ?_⟩
  · simp [inline_scheduler_impl.schedule]
  · intro u; simp [inline_scheduler_impl.schedule]
  · intro u; simp [inline_scheduler_impl.schedule]

/-- C6: destroying the thread pool while handles remain queued and
unstarted drops exactly those queued handles (they are never run: after
shutdown no worker can find any work), while the tasks already running on
worker threads are allowed to finish.  The hypothesis records that a queued
handle is not simultaneously running (handles are single-use). -/
theorem threadpool_destroy_drops_queued (p : threadpool_data)
    (hdisj : ∀ t ∈ pendingList p, t ∉ p.running) :
    (threadpool_scheduler.destroy p).dropped = pendingList p ∧
    (threadpool_scheduler.destroy p).finished = p.running ∧
    (∀ t ∈ (threadpool_scheduler.destroy p).dropped,
        t ∉ (threadpool_scheduler.destroy p).finished) ∧
    (threadpool_scheduler.destroy p).final.shutdown = true ∧
    ∀ j, findWork j (threadpool_scheduler.destroy p).final = none := by
  refine ⟨rfl, rfl, ?_, rfl, ?_⟩
  · intro t ht
    exact hdisj t ht
  · intro j
    exact findWork_replicate_nil j _ [] true

/-- C6 witness: a pool with two local queues, one injected handle and one
running task. -/
theorem threadpool_destroy_drops_queued_witness :
    (threadpool_scheduler.destroy
        ⟨[[⟨0⟩], [⟨1⟩]], [⟨2⟩], [⟨3⟩], false⟩).dropped
      = pendingList ⟨[[⟨0⟩], [⟨1⟩]], [⟨2⟩], [⟨3⟩], false⟩ ∧
    (threadpool_scheduler.destroy
        ⟨[[⟨0⟩], [⟨1⟩]], [⟨2⟩], [⟨3⟩], false⟩).finished = [⟨3⟩] ∧
    (∀ t ∈ (threadpool_scheduler.destroy
        ⟨[[⟨0⟩], [⟨1⟩]], [⟨2⟩], [⟨3⟩], false⟩).dropped,
      t ∉ (threadpool_scheduler.destroy
        ⟨[[⟨0⟩], [⟨1⟩]], [⟨2⟩], [⟨3⟩], false⟩).finished) ∧
    (threadpool_scheduler.destroy
        ⟨[[⟨0⟩], [⟨1⟩]], [⟨2⟩], [⟨3⟩], false⟩).final.shutdown = true ∧
    ∀ j, findWork j (threadpool_scheduler.destroy
        ⟨[[⟨0⟩], [⟨1⟩]], [⟨2⟩], [⟨3⟩], false⟩).final = none :=
  threadpool_destroy_drops_queued ⟨[[⟨0⟩], [⟨1⟩]], [⟨2⟩], [⟨3⟩], false⟩
    (by decide)

/-- C7: the helping wait strategy behind `wait_for_task` returns only once
the awaited record's completion flag is observed set, and when the awaited
task is complete or queued on the same pool the wait terminates by running
other queued work while waiting — no deadlock. -/
theorem wait_for_task_helping_spec (i target : Nat) (completed : List Nat)
    (p : threadpool_data)
    (hq : target ∈ completed ∨ target ∈ pendingIds p) :
    (∃ done p2, helpingWait i target completed p = some (done, p2)) ∧
    ∀ (c done : List Nat) (p0 p2 : threadpool_data),
      helpingWait i target c p0 = some (done, p2) → target ∈ done := by
  constructor
  · have hc := helpingWait_completes i target (pendingList p).length p
      le_rfl completed hq
    obtain ⟨⟨done, p2⟩, h⟩ := Option.isSome_iff_exists.mp hc
    exact ⟨done, p2, h⟩
  · intro c done p0 p2 h
    exact helpingWait_sound i target (pendingList p0).length p0 le_rfl
      c done p2 h

/-- C7 witness: worker 0 waits for task 7 which sits in worker 0's own
queue. -/
theorem wait_for_task_helping_witness :
    (∃ done p2, helpingWait 0 7 [] ⟨[[⟨7⟩]], [], [], false⟩
        = some (done, p2)) ∧
    ∀ (c done : List Nat) (p0 p2 : threadpool_data),
      helpingWait 0 7 c p0 = some (done, p2) → 7 ∈ done :=
  wait_for_task_helping_spec 0 7 [] ⟨[[⟨7⟩]], [], [], false⟩ (by decide)

/-- C8: for a type failing the scheduler contract, constructing a
`scheduler_ref` from it is rejected while compiling the constructor (the
`static_assert` inside `invoke_sched` fires during instantiation), and the
run-time dispatch of a constructed reference has no error path at all. -/
theorem scheduler_ref_rejects_non_scheduler (T : CppType)
    (hT : is_scheduler T = false) :
    scheduler_ref_construct T
      = Except.error
          (CompileError.staticAssertFailed "Type is not a valid scheduler") ∧
    ∀ (σ : Type) (impl : ScheduleFn σ) (sched : σ) (t : task_run_handle),
      (scheduler_ref.of impl sched).schedule t ≠ none := by
  constructor
  · simp [scheduler_ref_construct, instantiate_invoke_sched, hT]
  · intro σ impl sched t h
    exact Option.noConfusion h

/-- C8 witness: a type without a usable `schedule` member, even one derived
from a scheduler base class, is rejected at compile time. -/
theorem scheduler_ref_rejects_non_scheduler_witness :
    scheduler_ref_construct ⟨false, true⟩
      = Except.error
          (CompileError.staticAssertFailed "Type is not a valid scheduler") ∧
    ∀ (σ : Type) (impl : ScheduleFn σ) (sched : σ) (t : task_run_handle),
      (scheduler_ref.of impl sched).schedule t ≠ none :=
  scheduler_ref_rejects_non_scheduler ⟨false, true⟩ (by decide)

/-- C9: `is_scheduler<T>::value` holds exactly when `T` exposes a
`schedule` operation callable with a `task_run_handle` argument, and it is
insensitive to whether `T` inherits from any scheduler base type. -/
theorem is_scheduler_iff_has_schedule (T : CppType) :
    (is_scheduler T = true ↔ T.hasScheduleForHandle = true) ∧
    ∀ b : Bool, is_scheduler ⟨T.hasScheduleForHandle, b⟩ = is_scheduler T := by
  obtain ⟨hs, base⟩ := T
  cases hs <;> simp [is_scheduler, is_scheduler_helper_sizeof]

/-- C10: a default-constructed `scheduler_ref` leaves its scheduler pointer
and dispatch function pointer uninitialized, so calling `schedule` on it
calls through an indeterminate function pointer (undefined behaviour,
modelled as `none`); `schedule` is well defined exactly when the reference
was constructed from a live scheduler instance. -/
theorem scheduler_ref_default_ctor_indeterminate (σ : Type)
    (t : task_run_handle) :
    (scheduler_ref.default_ctor σ).sched_ptr = none ∧
    (scheduler_ref.default_ctor σ).sched_func = none ∧
    (scheduler_ref.default_ctor σ).schedule t = none ∧
    ∀ (impl : ScheduleFn σ) (sched : σ),
      (scheduler_ref.of impl sched).schedule t = some (impl sched t) :=
  ⟨rfl, rfl, rfl, fun _ _ => rfl⟩

end AsyncPP
